import Mathlib

/-!
Verification of the TeamScheduler assignment core against its specification.

The Python sources are shallowly embedded: calendar dates become `Int`
(days; a `timedelta(weeks = w)` is `7 * w` days), Python dicts become
association lists (so a `KeyError` is observable as a failed lookup),
and code that can raise runs in `Except String`.  Mutation is modelled
by explicit state passing; the scheduler's team list is threaded as a
list of persons addressed by position, which models Python's
remove-by-object-identity on the per-event working copy.
-/

/-- Calendar dates are modelled as a count of days, so that Python's
`date` subtraction (a `timedelta`, compared in days) is `Int`
subtraction. -/
abbrev Date := Int

/-- Day-of-year in 2024 (a leap year), so that the concrete calendar
dates appearing in the spec's scenarios can be written down; only
differences of dates matter. -/
def date2024 (m d : Nat) : Date :=
  (((List.take (m - 1) [31, 29, 31, 30, 31, 30, 31, 31, 30, 31, 30, 31]).foldl
    (fun a b => a + b) 0 : Nat) : Int) + (d : Int)

/-- The `Role` enumeration from `models/role.py`, in declaration
(priority) order.  The audio role's constructor carries a trailing
underscore in this embedding; its enum value and Python member name
remain the string "AUDIO" (see `Role.value` and `Role.pyName`). -/
inductive Role
  | WORSHIPLEADER
  | EMCEE
  | ACOUSTIC
  | KEYS
  | DRUMS
  | BASS
  | AUDIO_
  | LIVE
  | LYRICS
  | SUNDAYSCHOOLTEACHER
  | BACKUP
  | ELECTRIC
deriving DecidableEq

/-- All roles in declaration (priority) order: the iteration order of
`for role in Role` in `Schedule.build`. -/
def Role.all : List Role :=
  [.WORSHIPLEADER, .EMCEE, .ACOUSTIC, .KEYS, .DRUMS, .BASS, .AUDIO_,
   .LIVE, .LYRICS, .SUNDAYSCHOOLTEACHER, .BACKUP, .ELECTRIC]

/-- The string value of each member of the `Role` enum (`StrEnum`
values in `models/role.py`). -/
def Role.value : Role → String
  | .WORSHIPLEADER => "WORSHIP LEADER"
  | .EMCEE => "EMCEE"
  | .ACOUSTIC => "ACOUSTIC GUITAR"
  | .KEYS => "KEYS"
  | .DRUMS => "DRUMS"
  | .BASS => "BASS"
  | .AUDIO_ => "AUDIO"
  | .LIVE => "LIVE"
  | .LYRICS => "LYRICS"
  | .SUNDAYSCHOOLTEACHER => "SUNDAY SCHOOL TEACHER"
  | .BACKUP => "BACKUP"
  | .ELECTRIC => "ELECTRIC GUITAR"

/-- The Python enum member name (`role.name`), used in the error
message of `Event.assign_role`. -/
def Role.pyName : Role → String
  | .WORSHIPLEADER => "WORSHIPLEADER"
  | .EMCEE => "EMCEE"
  | .ACOUSTIC => "ACOUSTIC"
  | .KEYS => "KEYS"
  | .DRUMS => "DRUMS"
  | .BASS => "BASS"
  | .AUDIO_ => "AUDIO"
  | .LIVE => "LIVE"
  | .LYRICS => "LYRICS"
  | .SUNDAYSCHOOLTEACHER => "SUNDAYSCHOOLTEACHER"
  | .BACKUP => "BACKUP"
  | .ELECTRIC => "ELECTRIC"

/-- Conversion of an arbitrary string tag to a `Role` member: `some`
exactly when the Python membership test `role in Role` succeeds (the
`StrEnum` value check). -/
def Role.fromTag (s : String) : Option Role :=
  Role.all.find? (fun r => decide (r.value = s))

/-- Python dict lookup on an association list: `none` models a raised
`KeyError`. -/
def dictLookup (d : List (Role × Option Date)) (r : Role) : Option (Option Date) :=
  (d.find? (fun kv => decide (kv.1 = r))).map (fun kv => kv.2)

/-- Python dict assignment `d[r] = v`: updates the entry in place when
the key is present, otherwise appends a new entry. -/
def dictInsert (d : List (Role × Option Date)) (r : Role) (v : Option Date) :
    List (Role × Option Date) :=
  if (dictLookup d r).isSome then
    d.map (fun kv => if kv.1 = r then (kv.1, v) else kv)
  else
    d ++ [(r, v)]

/-- The `Person` state container from `models/person.py`.
`last_assigned_dates` is the dict keyed, at construction time, by the
person's declared roles only. -/
structure Person where
  name : String
  roles : List Role
  blockout_dates : List Date
  preaching_dates : List Date
  teaching_dates : List Date
  on_leave : Bool
  assigned_dates : List Date
  last_assigned_dates : List (Role × Option Date)
deriving DecidableEq

/-- `Person.__init__`: fresh history, and `last_assigned_dates` seeded
with `None` for each declared role (`{role: None for role in roles}`). -/
def Person.mk_init (name : String) (roles : List Role)
    (blockout_dates preaching_dates teaching_dates : List Date)
    (on_leave : Bool) : Person :=
  { name := name
    roles := roles
    blockout_dates := blockout_dates
    preaching_dates := preaching_dates
    teaching_dates := teaching_dates
    on_leave := on_leave
    assigned_dates := []
    last_assigned_dates := roles.map (fun r => (r, none)) }

/-- `Person.assign_event`: append the event date to `assigned_dates`
and record it as the last assigned date for the role. -/
def Person.assign_event (p : Person) (d : Date) (r : Role) : Person :=
  { p with
    assigned_dates := p.assigned_dates ++ [d]
    last_assigned_dates := dictInsert p.last_assigned_dates r (some d) }

def Person.WORSHIP_LEADER_ROLE_TIME_WINDOW : Int := 7 * 4
def Person.SUNDAY_SCHOOL_TEACHER_ROLE_TIME_WINDOW : Int := 7 * 4
def Person.EMCEE_ROLE_TIME_WINDOW : Int := 7 * 2
def Person.PREACHING_TIME_WINDOW : Int := 7 * 1
def Person.CONSECUTIVE_ASSIGNMENTS_LIMIT : Nat := 3

/-- Shared shape of the three cooldown branches: the dict access
`self.last_assigned_dates[role]` (which may raise `KeyError`) followed
by `last is None or date - last > window`. -/
def cooldownBranch (p : Person) (r : Role) (d : Date) (w : Int) : Except String Bool :=
  match dictLookup p.last_assigned_dates r with
  | none => .error "KeyError"
  | some none => .ok true
  | some (some last) => .ok (decide (d - last > w))

/-- `Person.was_not_assigned_too_recently_to_role`: per-role cooldown,
`True` for roles without a cooldown window. -/
def Person.was_not_assigned_too_recently_to_role (p : Person) (r : Role) (d : Date) :
    Except String Bool :=
  if r = Role.WORSHIPLEADER then
    cooldownBranch p r d Person.WORSHIP_LEADER_ROLE_TIME_WINDOW
  else if r = Role.SUNDAYSCHOOLTEACHER then
    cooldownBranch p r d Person.SUNDAY_SCHOOL_TEACHER_ROLE_TIME_WINDOW
  else if r = Role.EMCEE then
    cooldownBranch p r d Person.EMCEE_ROLE_TIME_WINDOW
  else
    .ok true

/-- Python's `min(future_dates, key=lambda x: abs(x - reference_date))`:
first element attaining the minimal absolute distance. -/
def minByDistance (ref : Date) : List Date → Option Date
  | [] => none
  | x :: xs =>
      some (xs.foldl (fun acc y =>
        if (y - ref).natAbs < (acc - ref).natAbs then y else acc) x)

/-- `Person.get_next_preaching_date`: the preaching date on or after
the reference date that is closest to it. -/
def Person.get_next_preaching_date (p : Person) (ref : Date) : Option Date :=
  if p.preaching_dates.isEmpty then none
  else
    let future := p.preaching_dates.filter (fun pd => decide (ref ≤ pd))
    if future.isEmpty then none
    else minByDistance ref future

/-- `Person.is_unavailable_due_to_preaching`: the next preaching date
exists and is at most one week away. -/
def Person.is_unavailable_due_to_preaching (p : Person) (ref : Date) : Bool :=
  if p.preaching_dates.isEmpty then false
  else
    match p.get_next_preaching_date ref with
    | some nd => decide (nd - ref ≤ Person.PREACHING_TIME_WINDOW)
    | none => false

/-- `Person.assigned_too_many_times_recently`: counts the *distinct*
dates (`set(self.assigned_dates + self.preaching_dates)`) within the
inclusive three-week window. -/
def Person.assigned_too_many_times_recently (p : Person) (ref : Date) : Bool :=
  if p.assigned_dates.isEmpty && p.preaching_dates.isEmpty then false
  else if p.assigned_dates.length + p.preaching_dates.length <
      Person.CONSECUTIVE_ASSIGNMENTS_LIMIT then false
  else
    let past := ref - 7 * (Person.CONSECUTIVE_ASSIGNMENTS_LIMIT : Int)
    let all_dates := (p.assigned_dates ++ p.preaching_dates).dedup
    decide (Person.CONSECUTIVE_ASSIGNMENTS_LIMIT ≤
      (all_dates.filter (fun x => decide (past ≤ x ∧ x ≤ ref))).length)

def RoleTimeWindowRule.WORSHIP_LEADER_ROLE_TIME_WINDOW : Int := 7 * 4
def RoleTimeWindowRule.SUNDAY_SCHOOL_TEACHER_ROLE_TIME_WINDOW : Int := 7 * 4
def RoleTimeWindowRule.EMCEE_ROLE_TIME_WINDOW : Int := 7 * 2

/-- `RoleTimeWindowRule.is_eligible` from `eligibility/rules.py`: the
per-role cooldown rule (the dict access may raise `KeyError`). -/
def RoleTimeWindowRule.is_eligible (p : Person) (r : Role) (d : Date) :
    Except String Bool :=
  if r = Role.WORSHIPLEADER then
    cooldownBranch p r d RoleTimeWindowRule.WORSHIP_LEADER_ROLE_TIME_WINDOW
  else if r = Role.SUNDAYSCHOOLTEACHER then
    cooldownBranch p r d RoleTimeWindowRule.SUNDAY_SCHOOL_TEACHER_ROLE_TIME_WINDOW
  else if r = Role.EMCEE then
    cooldownBranch p r d RoleTimeWindowRule.EMCEE_ROLE_TIME_WINDOW
  else
    .ok true

/-- `ConsecutiveAssignmentLimitRule.is_eligible` from
`eligibility/rules.py`: note it concatenates the two date lists
(`person.assigned_dates + person.preaching_dates`) without removing
duplicates. -/
def ConsecutiveAssignmentLimitRule.is_eligible (p : Person) (_r : Role) (d : Date) : Bool :=
  let past := d - 7 * (Person.CONSECUTIVE_ASSIGNMENTS_LIMIT : Int)
  let all_dates := p.assigned_dates ++ p.preaching_dates
  decide ((all_dates.filter (fun x => decide (past ≤ x ∧ x ≤ d))).length <
    Person.CONSECUTIVE_ASSIGNMENTS_LIMIT)

/-- `has_exceeded_consecutive_assignments` from
`util/assignment_checker.py`: raises `ValueError` on a non-positive
limit, otherwise counts the concatenated dates inside the inclusive
window. -/
def has_exceeded_consecutive_assignments (assigned_dates preaching_dates : List Date)
    (reference_date : Date) (limit : Int) : Except String Bool :=
  if limit ≤ 0 then .error "Limit must be a positive integer."
  else
    let window_start := reference_date - 7 * limit
    let all_dates := assigned_dates ++ preaching_dates
    .ok (decide (limit ≤
      ((all_dates.filter (fun x => decide (window_start ≤ x ∧ x ≤ reference_date))).length : Int)))

/-- Modelled from the spec: the `Person` fields required by §3 of the
spec that the sources do not maintain — `role_assigned_dates[role]` is
referenced by `ConsecutiveRoleAssignmentLimitRule` and by the tests
but never created in `models/person.py`.  Only the three history
structures of spec §3 are carried. -/
structure PersonX where
  assigned_dates : List Date
  last_assigned_date : Role → Option Date
  role_assigned_dates : Role → List Date

/-- `ConsecutiveRoleAssignmentLimitRule.is_eligible` from
`eligibility/rules.py`: keeps the dates with
`event_date - assigned_date <= timedelta(weeks=assignment_limit)` —
an inclusive lower bound and no upper bound at all. -/
def ConsecutiveRoleAssignmentLimitRule.is_eligible (assignment_limit : Int)
    (p : PersonX) (r : Role) (d : Date) : Bool :=
  let past_assigned_dates :=
    (p.role_assigned_dates r).filter (fun a => decide (d - a ≤ 7 * assignment_limit))
  decide ((past_assigned_dates.length : Int) < assignment_limit)

/-- Modelled from the spec: `assign(d, r)` (spec §3 lifecycle) —
"appends to history, sets last-assigned"; the per-role shadow list
`role_assigned_dates[r]` also receives the date, per the §3 invariant.
The maintenance code is absent from `src` (only `ui/command.py` and
the tests exercise it). -/
def PersonX.assign (p : PersonX) (d : Date) (r : Role) : PersonX :=
  { assigned_dates := p.assigned_dates ++ [d]
    last_assigned_date := fun x => if x = r then some d else p.last_assigned_date x
    role_assigned_dates := fun x =>
      if x = r then p.role_assigned_dates x ++ [d] else p.role_assigned_dates x }

/-- Largest element of a list of dates, `none` when empty. -/
def maxDate : List Date → Option Date
  | [] => none
  | x :: xs => some (xs.foldl max x)

/-- Modelled from the spec: `unassign(d, r)` (spec §3 lifecycle) —
"removes the date from all three history structures and recomputes
`last_assigned_date[role]` as the new max, or unset if none remain".
Removal takes out one occurrence, as Python's `list.remove` would.
The operation is absent from `src` (only `ui/command.py` and the tests
call `Event.unassign_role`). -/
def PersonX.unassign (p : PersonX) (d : Date) (r : Role) : PersonX :=
  let newRoleDates := (p.role_assigned_dates r).erase d
  { assigned_dates := p.assigned_dates.erase d
    last_assigned_date := fun x => if x = r then maxDate newRoleDates else p.last_assigned_date x
    role_assigned_dates := fun x => if x = r then newRoleDates else p.role_assigned_dates x }

/-- The `Preacher` record from `models/preacher.py`. -/
structure Preacher where
  name : String
  graphics_support : String
  dates : List Date
deriving DecidableEq

/-- The role→assignee mapping of an event
(`self.roles = {role: None for role in Role}`); `none` is the
unassigned marker. -/
abbrev RMap := Role → Option String

/-- The `Event` state container from `models/event.py`. -/
structure Event where
  date : Date
  team : List Person
  roles : RMap
  preachers : List Preacher

/-- `Event.__init__`: every role starts unassigned. -/
def Event.mk_init (date : Date) (team : List Person) (preachers : List Preacher) : Event :=
  { date := date, team := team, roles := fun _ => none, preachers := preachers }

/-- Modelled from the spec: `Event.get_assigned_preacher_and_graphics_support`
is called by `Schedule.build` and listed in the `Event` docstring but
is absent from `src`; per spec §3 the assigned preacher is the first
preacher whose `dates` contains the event date, and the graphics
support is that preacher's `graphics_support` string. -/
def Event.get_assigned_preacher_and_graphics_support (preachers : List Preacher)
    (d : Date) : Option String × Option String :=
  match preachers.find? (fun pr => decide (d ∈ pr.dates)) with
  | some pr => (some pr.name, some pr.graphics_support)
  | none => (none, none)

/-- `Event.assign_role`: the checks of `models/event.py` lines 57-64 in
source order.  The argument is an arbitrary tag (Python callers may
pass any object; `role not in Role` is the `StrEnum` value test), and
on error the event and the person are returned untouched, since the
`raise` happens before any mutation. -/
def Event.assign_role (e : Event) (tag : String) (p : Person) :
    Event × Person × Option String :=
  match Role.fromTag tag with
  | none => (e, p, some (tag ++ " is not a valid role."))
  | some role =>
    match e.roles role with
    | some _ => (e, p, some (role.pyName ++ " already has a person assigned."))
    | none =>
      ({ e with roles := fun x => if x = role then some p.name else e.roles x },
       p.assign_event e.date role, none)

/-- The slot-check-and-update core of `Event.assign_role` for a role
that is already a genuine `Role` member, as invoked from
`Schedule.build`; the `ValueError` is the `Except.error` case. -/
def Event.assign_role_valid (m : RMap) (d : Date) (r : Role) (p : Person) :
    Except String (RMap × Person) :=
  match m r with
  | some _ => .error (r.pyName ++ " already has a person assigned.")
  | none => .ok (fun x => if x = r then some p.name else m x, p.assign_event d r)

/-- The circular scan shared verbatim by
`WorshipLeaderSelector.get_next` and `Schedule.get_next_worship_leader`:
at most `fuel` steps, looking for the first rotation name present in
the eligible list. -/
def rotationGetNextAux {α : Type} (nameOf : α → String) (rotation : List String)
    (eligible : List α) : Nat → Nat → Option (α × Nat)
  | 0, _ => none
  | fuel + 1, idx =>
    match eligible.find? (fun q => decide (nameOf q = rotation.getD idx "")) with
    | some q => some (q, (idx + 1) % rotation.length)
    | none => rotationGetNextAux nameOf rotation eligible fuel ((idx + 1) % rotation.length)

/-- The round-robin selection algorithm of
`helpers/worship_leader_selector.py` lines 36-60 (and its copy in
`builders/schedule.py` lines 214-234): returns the selected element
(if any) and the new cursor; the cursor moves only on success. -/
def rotationGetNext {α : Type} (nameOf : α → String) (rotation : List String)
    (idx : Nat) (eligible : List α) : Option α × Nat :=
  if eligible.isEmpty || rotation.isEmpty then (none, idx)
  else
    match rotationGetNextAux nameOf rotation eligible rotation.length idx with
    | some (q, j) => (some q, j)
    | none => (none, idx)

/-- `WorshipLeaderSelector.get_next`, with the selector state
(`rotation`, `index`) passed and returned explicitly. -/
def WorshipLeaderSelector.get_next (rotation : List String) (idx : Nat)
    (eligible : List Person) : Option Person × Nat :=
  rotationGetNext Person.name rotation idx eligible

/-- `Schedule.get_next_worship_leader`: the same algorithm applied to
the scheduler's pool entries (position in the team paired with the
person). -/
def Schedule.get_next_worship_leader (rotation : List String) (idx : Nat)
    (eligible : List (Nat × Person)) : Option (Nat × Person) × Nat :=
  rotationGetNext (fun e => e.2.name) rotation idx eligible

/-- `self.default_role_assignment_limit = 2` from `Schedule.__init__`. -/
def Schedule.default_role_assignment_limit : Nat := 2

/-- `Schedule.was_assigned_role_consecutively_too_many_times`: counts
how often `name` holds `role` among the already-built events dated
within `limit` weeks before the reference date. -/
def Schedule.was_assigned_role_consecutively_too_many_times
    (events : List (Date × RMap)) (lim : Nat) (name : String) (r : Role) (d : Date) : Bool :=
  let past_assigned_names :=
    (events.filter (fun ev => decide (d - ev.1 ≤ 7 * (lim : Int)))).map (fun ev => ev.2 r)
  decide (lim ≤ (past_assigned_names.filter (fun v => decide (v = some name))).length)

/-- Python string truthiness of an optional preacher name (`None` and
the empty string are falsy). -/
def isFalsyName : Option String → Bool
  | none => true
  | some s => decide (s = "")

/-- The body of the per-person eligibility loop of
`Schedule.get_eligible_person` (lines 109-163): the three `continue`
guards in source order, then the criteria conjunction.  The call to
`was_not_assigned_too_recently_to_role` can raise `KeyError`. -/
def Schedule.elig_check (events : List (Date × RMap)) (lim : Nat) (p : Person)
    (r : Role) (d : Date) (preacher_name : Option String) : Except String Bool :=
  if ¬ (r ∈ p.roles) then .ok false
  else if p.name = "Lulu" ∧ r = Role.EMCEE ∧
      (isFalsyName preacher_name = true ∨
        (isFalsyName preacher_name = false ∧ preacher_name ≠ some "Edmund")) then .ok false
  else if p.name = "Gee" ∧ r = Role.WORSHIPLEADER ∧ preacher_name = some "Kris" then .ok false
  else
    match p.was_not_assigned_too_recently_to_role r d with
    | .error msg => .error msg
    | .ok wasNotAssignedRoleTooRecently =>
      .ok (!p.on_leave
        && !(decide (d ∈ p.blockout_dates))
        && !(decide (d ∈ p.preaching_dates))
        && !(p.assigned_too_many_times_recently d)
        && wasNotAssignedRoleTooRecently
        && !(Schedule.was_assigned_role_consecutively_too_many_times events lim p.name r d)
        && (!(decide (r = Role.WORSHIPLEADER))
            || (!(decide (d ∈ p.teaching_dates)) && !(p.is_unavailable_due_to_preaching d))))

/-- The `eligible_persons` accumulation of `Schedule.get_eligible_person`,
kept in pool order. -/
def Schedule.collect_eligible (events : List (Date × RMap)) (lim : Nat)
    (pool : List (Nat × Person)) (r : Role) (d : Date) (pn : Option String) :
    Except String (List (Nat × Person)) :=
  match pool with
  | [] => .ok []
  | e :: rest =>
    match Schedule.elig_check events lim e.2 r d pn with
    | .error msg => .error msg
    | .ok b =>
      match Schedule.collect_eligible events lim rest r d pn with
      | .error msg => .error msg
      | .ok tail => .ok (if b then e :: tail else tail)

/-- `Schedule.get_eligible_person`: empty-team early return, the
eligibility filter, the rotation tie-break for the worship-leader role
and the random fallback.  Python's `random.choice` is abstracted as the
`pick` argument; the worship-leader cursor is threaded explicitly and
advances only when the rotation finds a match. -/
def Schedule.get_eligible_person (events : List (Date × RMap)) (lim : Nat)
    (rotation : List String) (widx : Nat) (pool : List (Nat × Person)) (r : Role)
    (d : Date) (pn : Option String)
    (pick : List (Nat × Person) → Option (Nat × Person)) :
    Except String (Option (Nat × Person) × Nat) :=
  if pool.isEmpty then .ok (none, widx)
  else
    match Schedule.collect_eligible events lim pool r d pn with
    | .error msg => .error msg
    | .ok elig =>
      if elig.isEmpty then .ok (none, widx)
      else if r = Role.WORSHIPLEADER then
        match Schedule.get_next_worship_leader rotation widx elig with
        | (some sel, widx') => .ok (some sel, widx')
        | (none, widx') => .ok (pick elig, widx')
      else .ok (pick elig, widx)

/-- The team working copy of one event: the persons paired with their
position in the team list, which stands in for Python's object
identity in `team_copy.remove(eligible_person)`. -/
def indexedFrom {α : Type} : Nat → List α → List (Nat × α)
  | _, [] => []
  | n, a :: as => (n, a) :: indexedFrom (n + 1) as

/-- The `for role in Role` loop of one event in `Schedule.build`
(lines 74-83): find an eligible person, record them in the event's
role map, update their history in the team, and drop them from the
working pool. -/
def Schedule.assign_roles (events : List (Date × RMap)) (lim : Nat)
    (rotation : List String) (pn : Option String)
    (pick : List (Nat × Person) → Option (Nat × Person)) (d : Date) :
    List Role → List Person → List (Nat × Person) → Nat → RMap →
    Except String (List Person × List (Nat × Person) × Nat × RMap)
  | [], team, pool, widx, m => .ok (team, pool, widx, m)
  | r :: rs, team, pool, widx, m =>
    match Schedule.get_eligible_person events lim rotation widx pool r d pn pick with
    | .error msg => .error msg
    | .ok (none, widx') => Schedule.assign_roles events lim rotation pn pick d rs team pool widx' m
    | .ok (some e, widx') =>
      match Event.assign_role_valid m d r e.2 with
      | .error msg => .error msg
      | .ok (m', p') =>
        Schedule.assign_roles events lim rotation pn pick d rs
          (team.set e.1 p') (pool.eraseP (fun x => decide (x.1 = e.1))) widx' m'

/-- One iteration of the date loop of `Schedule.build`: resolve the
event's preacher, build the working pool, run the role loop, append
the finished event. -/
def Schedule.build_event (preachers : List Preacher) (lim : Nat)
    (rotation : List String) (pick : List (Nat × Person) → Option (Nat × Person))
    (team : List Person) (events : List (Date × RMap)) (widx : Nat) (d : Date) :
    Except String (List Person × List (Date × RMap) × Nat) :=
  let pn := (Event.get_assigned_preacher_and_graphics_support preachers d).1
  match Schedule.assign_roles events lim rotation pn pick d Role.all team
      (indexedFrom 0 team) widx (fun _ => none) with
  | .error msg => .error msg
  | .ok (team', _, widx', m) => .ok (team', events ++ [(d, m)], widx')

/-- The date loop of `Schedule.build`. -/
def Schedule.build_loop (preachers : List Preacher) (lim : Nat)
    (rotation : List String) (pick : List (Nat × Person) → Option (Nat × Person)) :
    List Date → List Person → List (Date × RMap) → Nat →
    Except String (List Person × List (Date × RMap) × Nat)
  | [], team, events, widx => .ok (team, events, widx)
  | d :: ds, team, events, widx =>
    match Schedule.build_event preachers lim rotation pick team events widx d with
    | .error msg => .error msg
    | .ok (team', events', widx') =>
      Schedule.build_loop preachers lim rotation pick ds team' events' widx'

/-- `Schedule.build` on a freshly constructed `Schedule`: returns the
built events and the (history-updated) team.  The produced `Event`
records carry the final team, matching the fact that Python events
alias the live team list.  (The `if team_copy is None` guard of lines
66-68 is unreachable for a list-valued team, since `copy.copy` of a
list is never `None`.) -/
def Schedule.build (team : List Person) (event_dates : List Date)
    (preachers : List Preacher) (rotation : List String)
    (pick : List (Nat × Person) → Option (Nat × Person)) :
    Except String (List Event × List Person) :=
  match Schedule.build_loop preachers Schedule.default_role_assignment_limit rotation pick
      event_dates team [] 0 with
  | .error msg => .error msg
  | .ok (team', events, _) =>
    .ok (events.map (fun em =>
      { date := em.1, team := team', roles := em.2, preachers := preachers }), team')

/-- The roles that carry a cooldown window in `RoleTimeWindowRule` and
`Person.was_not_assigned_too_recently_to_role`. -/
def cooldownRoles : List Role := [.WORSHIPLEADER, .SUNDAYSCHOOLTEACHER, .EMCEE]

/-- The cooldown window, in days, of each cooldown-bearing role. -/
def cooldownWindow : Role → Int
  | .WORSHIPLEADER => 28
  | .SUNDAYSCHOOLTEACHER => 28
  | .EMCEE => 14
  | _ => 0

/-- The verdict of a cooldown check given the stored last-assigned
entry: eligible when unset or strictly outside the window. -/
def cooldownVerdict (v : Option Date) (d : Date) (w : Int) : Bool :=
  match v with
  | none => true
  | some last => decide (d - last > w)

/-- The names assigned in an event's role map, in role order. -/
def assignedNames (m : RMap) : List String := Role.all.filterMap m

/-- A `pick` function models Python's `random.choice(eligible_persons)`
when it returns a member of its argument and succeeds on any nonempty
argument. -/
def ValidPick (pick : List (Nat × Person) → Option (Nat × Person)) : Prop :=
  ∀ l, (∀ x, pick l = some x → x ∈ l) ∧ (l ≠ [] → (pick l).isSome)

/-- Fixture: a one-role person with no constraints (spec E2E scenario A). -/
def alice : Person := Person.mk_init "Alice" [Role.WORSHIPLEADER] [] [] [] false

/-- Fixture: a person last assigned worship leader on 2024-06-30 (spec
E2E scenario C). -/
def pBoundary : Person :=
  { alice with last_assigned_dates := [(Role.WORSHIPLEADER, some (date2024 6 30))] }

/-- Fixture for C6: date 7 appears in both `assigned_dates` and
`preaching_dates`, so the union has two distinct window dates while the
concatenation has three. -/
def pCex : Person :=
  { name := "Cex", roles := [Role.KEYS], blockout_dates := [], preaching_dates := [7],
    teaching_dates := [], on_leave := false, assigned_dates := [0, 7],
    last_assigned_dates := [(Role.KEYS, none)] }

/-- Fixture for C7: a single role assignment exactly `assignment_limit`
weeks before the reference date. -/
def pXBoundary : PersonX :=
  { assigned_dates := [],
    last_assigned_date := fun _ => none,
    role_assigned_dates := fun r => if r = Role.EMCEE then [-7] else [] }

/-- Fixture for C4: the date being re-assigned already occurs in the
histories (followed by a later date), so the erase-then-recompute
round trip permutes the list. -/
def p4 : PersonX :=
  { assigned_dates := [5, 9],
    last_assigned_date := fun _ => some 9,
    role_assigned_dates := fun _ => [5, 9] }

/-- Fixture for the C4 witness: a person with empty histories. -/
def p0X : PersonX :=
  { assigned_dates := [], last_assigned_date := fun _ => none,
    role_assigned_dates := fun _ => [] }

/-- Fixtures for C8: the rotation `[B, C, A]` and a fully eligible
candidate set (spec P4). -/
def rotBCA : List String := ["B", "C", "A"]

def wlA : Person := Person.mk_init "A" [Role.WORSHIPLEADER] [] [] [] false

def wlB : Person := Person.mk_init "B" [Role.WORSHIPLEADER] [] [] [] false

def wlC : Person := Person.mk_init "C" [Role.WORSHIPLEADER] [] [] [] false

def eligABC : List Person := [wlA, wlB, wlC]

/-- Fixture for C9: a fresh event on day 0 with no team and no
preachers. -/
def eWit : Event := Event.mk_init 0 [] []

/-- A person state reachable from construction: `Person.__init__`
followed by a sequence of `assign_event` calls (one per `(date, role)`
assignment, in order). -/
def Person.applyAssigns (p : Person) (ops : List (Date × Role)) : Person :=
  ops.foldl (fun q op => q.assign_event op.1 op.2) p

/-! Theorems. -/

lemma erase_append_singleton {d : Date} {A : List Date} (h : d ∉ A) :
    (A ++ [d]).erase d = A := by
  rw [List.erase_append_right _ h]
  simp

/-- Claim C5: the per-role cooldown is strict.  For a cooldown-bearing
role whose last-assigned entry is present, `RoleTimeWindowRule.is_eligible`
and `Person.was_not_assigned_too_recently_to_role` both return `True`
iff the entry is unset or the event date is strictly more than the
window (4 weeks for worship leader and Sunday-school teacher, 2 weeks
for emcee) after it; for every other role both return `True`. -/
theorem role_time_window_strict (p : Person) (r : Role) (d : Date) :
    (∀ v, r ∈ cooldownRoles → dictLookup p.last_assigned_dates r = some v →
      RoleTimeWindowRule.is_eligible p r d = .ok (cooldownVerdict v d (cooldownWindow r))
      ∧ Person.was_not_assigned_too_recently_to_role p r d =
          .ok (cooldownVerdict v d (cooldownWindow r))
      ∧ (cooldownVerdict v d (cooldownWindow r) = true ↔
          v = none ∨ ∃ last, v = some last ∧ d - last > cooldownWindow r))
    ∧ (r ∉ cooldownRoles →
        RoleTimeWindowRule.is_eligible p r d = .ok true
        ∧ Person.was_not_assigned_too_recently_to_role p r d = .ok true) := by
  constructor
  · intro v hr hv
    have hverdict : cooldownVerdict v d (cooldownWindow r) = true ↔
        v = none ∨ ∃ last, v = some last ∧ d - last > cooldownWindow r := by
      cases v with
      | none => simp [cooldownVerdict]
      | some last => simp [cooldownVerdict]
    simp only [cooldownRoles, List.mem_cons, List.not_mem_nil, or_false] at hr
    rcases hr with rfl | rfl | rfl <;>
      exact ⟨by simp [RoleTimeWindowRule.is_eligible, cooldownBranch, hv, cooldownWindow,
              RoleTimeWindowRule.WORSHIP_LEADER_ROLE_TIME_WINDOW,
              RoleTimeWindowRule.SUNDAY_SCHOOL_TEACHER_ROLE_TIME_WINDOW,
              RoleTimeWindowRule.EMCEE_ROLE_TIME_WINDOW, cooldownVerdict] <;> cases v <;> rfl,
            by simp [Person.was_not_assigned_too_recently_to_role, cooldownBranch, hv,
              cooldownWindow, Person.WORSHIP_LEADER_ROLE_TIME_WINDOW,
              Person.SUNDAY_SCHOOL_TEACHER_ROLE_TIME_WINDOW,
              Person.EMCEE_ROLE_TIME_WINDOW, cooldownVerdict] <;> cases v <;> rfl,
            hverdict⟩
  · intro hr
    simp only [cooldownRoles, List.mem_cons, List.not_mem_nil, or_false, not_or] at hr
    obtain ⟨h1, h2, h3⟩ := hr
    exact ⟨by simp [RoleTimeWindowRule.is_eligible, h1, h2, h3],
           by simp [Person.was_not_assigned_too_recently_to_role, h1, h2, h3]⟩

/-- Claim C5 witness: a worship leader last assigned on 2024-06-30 is
still ineligible exactly 4 weeks later (2024-07-28) and eligible 5
weeks later (2024-08-04). -/
theorem role_time_window_strict_witness :
    RoleTimeWindowRule.is_eligible pBoundary Role.WORSHIPLEADER (date2024 7 28) = .ok false
    ∧ RoleTimeWindowRule.is_eligible pBoundary Role.WORSHIPLEADER (date2024 8 4) = .ok true := by
  have h1 := (role_time_window_strict pBoundary Role.WORSHIPLEADER (date2024 7 28)).1
    (some (date2024 6 30)) (by decide) (by decide)
  have h2 := (role_time_window_strict pBoundary Role.WORSHIPLEADER (date2024 8 4)).1
    (some (date2024 6 30)) (by decide) (by decide)
  exact ⟨by rw [h1.1]; rfl, by rw [h2.1]; rfl⟩

/-- Claim C6 counterexample: on a date present in both `assigned_dates`
and `preaching_dates` (here day 7, with day 0 also assigned), the set
union holds only 2 distinct window dates (< 3), yet
`ConsecutiveAssignmentLimitRule.is_eligible` reports ineligible and
`has_exceeded_consecutive_assignments` reports exceeded, because both
concatenate the lists and count the duplicate twice;
`Person.assigned_too_many_times_recently` (the union-based variant)
disagrees with them on the same data. -/
theorem consecutive_limit_union_cex :
    ConsecutiveAssignmentLimitRule.is_eligible pCex Role.KEYS 7 = false
    ∧ has_exceeded_consecutive_assignments pCex.assigned_dates pCex.preaching_dates 7 3 = .ok true
    ∧ ((pCex.assigned_dates ++ pCex.preaching_dates).dedup.filter
        (fun x => decide ((7:Int) - 7 * (Person.CONSECUTIVE_ASSIGNMENTS_LIMIT : Int) ≤ x ∧ x ≤ 7))).length
        < Person.CONSECUTIVE_ASSIGNMENTS_LIMIT
    ∧ pCex.assigned_too_many_times_recently 7 = false :=
  ⟨by decide, by rfl, by decide, by decide⟩

/-- Claim C6 amended: `Person.assigned_too_many_times_recently` (the
check `Schedule.build` actually calls) uses the set union, counting a
date present in both lists once: eligible iff the distinct dates in
the inclusive window `[d - L weeks, d]` number fewer than `L = 3`.
`ConsecutiveAssignmentLimitRule.is_eligible` and
`has_exceeded_consecutive_assignments` instead concatenate the two
lists, counting a date present in both lists twice. -/
theorem consecutive_limit_window_semantics :
    (∀ (p : Person) (ref : Date),
      p.assigned_too_many_times_recently ref = false ↔
        ((p.assigned_dates ++ p.preaching_dates).dedup.filter
          (fun x => decide (ref - 7 * (Person.CONSECUTIVE_ASSIGNMENTS_LIMIT : Int) ≤ x ∧ x ≤ ref))).length
          < Person.CONSECUTIVE_ASSIGNMENTS_LIMIT)
    ∧ (∀ (p : Person) (r : Role) (d : Date),
      ConsecutiveAssignmentLimitRule.is_eligible p r d = true ↔
        ((p.assigned_dates ++ p.preaching_dates).filter
          (fun x => decide (d - 7 * (Person.CONSECUTIVE_ASSIGNMENTS_LIMIT : Int) ≤ x ∧ x ≤ d))).length
          < Person.CONSECUTIVE_ASSIGNMENTS_LIMIT)
    ∧ (∀ (assigned preaching : List Date) (ref : Date) (limit : Int), 0 < limit →
      (has_exceeded_consecutive_assignments assigned preaching ref limit = .ok false ↔
        (((assigned ++ preaching).filter
          (fun x => decide (ref - 7 * limit ≤ x ∧ x ≤ ref))).length : Int) < limit)) := by
  refine ⟨?_, ?_, ?_⟩
  · intro p ref
    unfold Person.assigned_too_many_times_recently
    by_cases h1 : p.assigned_dates.isEmpty && p.preaching_dates.isEmpty
    · have ha : p.assigned_dates = [] := by
        simp only [Bool.and_eq_true, List.isEmpty_iff] at h1; exact h1.1
      have hp : p.preaching_dates = [] := by
        simp only [Bool.and_eq_true, List.isEmpty_iff] at h1; exact h1.2
      simp [h1, ha, hp, Person.CONSECUTIVE_ASSIGNMENTS_LIMIT]
    · rw [if_neg h1]
      by_cases h2 : p.assigned_dates.length + p.preaching_dates.length <
          Person.CONSECUTIVE_ASSIGNMENTS_LIMIT
      · rw [if_pos h2]
        have hle : ((p.assigned_dates ++ p.preaching_dates).dedup.filter
            (fun x => decide (ref - 7 * (Person.CONSECUTIVE_ASSIGNMENTS_LIMIT : Int) ≤ x ∧ x ≤ ref))).length
            ≤ p.assigned_dates.length + p.preaching_dates.length := by
          calc _ ≤ (p.assigned_dates ++ p.preaching_dates).dedup.length :=
                List.length_filter_le _ _
            _ ≤ (p.assigned_dates ++ p.preaching_dates).length :=
                (List.dedup_sublist _).length_le
            _ = _ := List.length_append _ _
        simp only [eq_self_iff_true, true_iff]
        omega
      · rw [if_neg h2]
        simp only [decide_eq_false_iff_not, not_le]
  · intro p r d
    unfold ConsecutiveAssignmentLimitRule.is_eligible
    simp [decide_eq_true_iff]
  · intro assigned preaching ref limit hlim
    unfold has_exceeded_consecutive_assignments
    rw [if_neg (by omega)]
    constructor
    · intro h
      have := Except.ok.inj h
      simp only [decide_eq_false_iff_not, not_le] at this
      exact this
    · intro h
      have : decide (limit ≤
          (((assigned ++ preaching).filter
            (fun x => decide (ref - 7 * limit ≤ x ∧ x ≤ ref))).length : Int)) = false := by
        simp only [decide_eq_false_iff_not, not_le]; exact h
      exact congrArg Except.ok this

/-- Claim C6 amended witness: the three checks evaluated on concrete
data through the amended theorem. -/
theorem consecutive_limit_window_semantics_witness :
    (pCex.assigned_too_many_times_recently 7 = false)
    ∧ (has_exceeded_consecutive_assignments [0, 7] [7] 7 3 = .ok true) := by
  constructor
  · exact (consecutive_limit_window_semantics.1 pCex 7).mpr (by decide)
  · have h := consecutive_limit_window_semantics.2.2 [0, 7] [7] 7 3 (by omega)
    cases hres : has_exceeded_consecutive_assignments [0, 7] [7] 7 3 with
    | error msg => exact absurd hres (by rw [show has_exceeded_consecutive_assignments [0, 7] [7] 7 3 = .ok true from rfl]; simp)
    | ok b =>
      cases b with
      | false =>
        have := (h.mp hres)
        exact absurd this (by decide)
      | true => rfl

/-- Claim C7 counterexample: with `assignment_limit = 1` and a single
role assignment exactly one week (the full window) before the
reference date, `ConsecutiveRoleAssignmentLimitRule.is_eligible`
reports ineligible (the filter keeps `d - a ≤ 7 * limit`, an inclusive
lower bound), while the claimed half-open window
`(d - limit weeks, d]` contains no date at all. -/
theorem consecutive_role_limit_window_cex :
    ConsecutiveRoleAssignmentLimitRule.is_eligible 1 pXBoundary Role.EMCEE 0 = false
    ∧ ((((pXBoundary.role_assigned_dates Role.EMCEE).filter
        (fun a => decide ((0:Int) - 7 * 1 < a ∧ a ≤ 0))).length : Int) < 1) :=
  ⟨by decide, by decide⟩

/-- Claim C7 amended: `ConsecutiveRoleAssignmentLimitRule.is_eligible`
is eligible iff the count of dates of `role_assigned_dates[role]` lying
in `[event.date - assignment_limit weeks, +∞)` — an inclusive lower
bound, with no upper bound, so future dates are also counted — is
strictly below `assignment_limit`. -/
theorem consecutive_role_limit_semantics (l : Int) (p : PersonX) (r : Role) (d : Date) :
    ConsecutiveRoleAssignmentLimitRule.is_eligible l p r d = true ↔
      (((p.role_assigned_dates r).filter (fun a => decide (d - 7 * l ≤ a))).length : Int) < l := by
  unfold ConsecutiveRoleAssignmentLimitRule.is_eligible
  rw [decide_eq_true_iff]
  have hp : (fun a => decide (d - a ≤ 7 * l)) = (fun a : Date => decide (d - 7 * l ≤ a)) := by
    funext a
    rw [decide_eq_decide]
    constructor <;> intro h <;> linarith
  rw [hp]

/-- Claim C4 counterexample: re-assigning a date that already occurs in
the histories and erasing it again permutes `assigned_dates` — for
`p4` (history `[5, 9]`), `assign 5` then `unassign 5` yields `[9, 5]`,
not the original `[5, 9]`, so the round trip is not an exact inverse
for every person and date. -/
theorem assign_unassign_not_inverse_cex :
    ((p4.assign 5 Role.EMCEE).unassign 5 Role.EMCEE).assigned_dates ≠ p4.assigned_dates := by
  decide

/-- Claim C4 amended: provided the date is fresh (it occurs in neither
`assigned_dates` nor `role_assigned_dates[r]`) and the spec §3
invariant `last_assigned_date[r] = max(role_assigned_dates[r])` holds,
`assign(d, r)` followed by `unassign(d, r)` restores `assigned_dates`,
`last_assigned_date[r]` and `role_assigned_dates[r]` exactly, the
unassign removing the date from the histories and recomputing the last
assigned date as the new max (or unset). -/
theorem assign_unassign_roundtrip (p : PersonX) (d : Date) (r : Role)
    (h1 : d ∉ p.assigned_dates) (h2 : d ∉ p.role_assigned_dates r)
    (h3 : p.last_assigned_date r = maxDate (p.role_assigned_dates r)) :
    ((p.assign d r).unassign d r).assigned_dates = p.assigned_dates
    ∧ ((p.assign d r).unassign d r).last_assigned_date r = p.last_assigned_date r
    ∧ ((p.assign d r).unassign d r).role_assigned_dates r = p.role_assigned_dates r := by
  refine ⟨?_, ?_, ?_⟩
  · simp [PersonX.assign, PersonX.unassign, erase_append_singleton h1]
  · simp [PersonX.assign, PersonX.unassign, erase_append_singleton h2, h3]
  · simp [PersonX.assign, PersonX.unassign, erase_append_singleton h2]

/-- Claim C4 amended witness: the round trip on a person with empty
histories. -/
theorem assign_unassign_roundtrip_witness :
    ((p0X.assign 3 Role.EMCEE).unassign 3 Role.EMCEE).assigned_dates = p0X.assigned_dates
    ∧ ((p0X.assign 3 Role.EMCEE).unassign 3 Role.EMCEE).last_assigned_date Role.EMCEE =
        p0X.last_assigned_date Role.EMCEE
    ∧ ((p0X.assign 3 Role.EMCEE).unassign 3 Role.EMCEE).role_assigned_dates Role.EMCEE =
        p0X.role_assigned_dates Role.EMCEE :=
  assign_unassign_roundtrip p0X 3 Role.EMCEE (by decide) (by decide) (by decide)

/-- Claim C9: `Event.assign_role` rejects an unrecognized role tag and
an already-filled slot with the descriptive `ValueError` messages of
`models/event.py`, leaving both the event's role map and the person
untouched in either error case; on a valid role with an empty slot it
records the person's name in exactly that slot and appends the event
date to the person's history via `Person.assign_event`. -/
theorem assign_role_atomic (e : Event) (tag : String) (p : Person) :
    (Role.fromTag tag = none →
      Event.assign_role e tag p = (e, p, some (tag ++ " is not a valid role.")))
    ∧ (∀ r, Role.fromTag tag = some r → ∀ nm, e.roles r = some nm →
      Event.assign_role e tag p = (e, p, some (r.pyName ++ " already has a person assigned.")))
    ∧ (∀ r, Role.fromTag tag = some r → e.roles r = none →
      ∃ e' p', Event.assign_role e tag p = (e', p', none)
        ∧ e'.roles r = some p.name
        ∧ (∀ x, x ≠ r → e'.roles x = e.roles x)
        ∧ e'.date = e.date ∧ e'.team = e.team ∧ e'.preachers = e.preachers
        ∧ p' = p.assign_event e.date r
        ∧ p'.assigned_dates = p.assigned_dates ++ [e.date]) := by
  refine ⟨?_, ?_, ?_⟩
  · intro h
    simp [Event.assign_role, h]
  · intro r hr nm hnm
    simp [Event.assign_role, hr, hnm]
  · intro r hr hnone
    refine ⟨{ e with roles := fun x => if x = r then some p.name else e.roles x },
      p.assign_event e.date r, ?_, ?_, ?_, rfl, rfl, rfl, rfl, ?_⟩
    · simp [Event.assign_role, hr, hnone]
    · simp
    · intro x hx
      simp [hx]
    · simp [Person.assign_event]

/-- Claim C9 witness: an unrecognized tag is rejected with the event
and person unchanged, and a valid assignment on the fresh event fills
exactly the requested slot. -/
theorem assign_role_atomic_witness :
    Event.assign_role eWit "BOGUS" alice = (eWit, alice, some "BOGUS is not a valid role.")
    ∧ ∃ e' p', Event.assign_role eWit "EMCEE" alice = (e', p', none)
        ∧ e'.roles Role.EMCEE = some "Alice"
        ∧ p'.assigned_dates = [(0 : Int)] := by
  constructor
  · exact (assign_role_atomic eWit "BOGUS" alice).1 (by rfl)
  · obtain ⟨e', p', hrun, hslot, _hother, _hd, _ht, _hp, _hpe, hdates⟩ :=
      (assign_role_atomic eWit "EMCEE" alice).2.2 Role.EMCEE (by rfl) (by rfl)
    exact ⟨e', p', hrun, hslot, by simpa using hdates⟩

lemma rotationGetNextAux_mem {α : Type} (nameOf : α → String) (rotation : List String)
    (eligible : List α) :
    ∀ fuel idx q j, rotationGetNextAux nameOf rotation eligible fuel idx = some (q, j) →
      q ∈ eligible := by
  intro fuel
  induction fuel with
  | zero =>
    intro idx q j h
    simp [rotationGetNextAux] at h
  | succ n ih =>
    intro idx q j h
    rw [rotationGetNextAux] at h
    cases hfind : eligible.find? (fun x => decide (nameOf x = rotation.getD idx "")) with
    | some x =>
      rw [hfind] at h
      have hx : x = q := by
        simpa using congrArg (fun o => (Option.map Prod.fst o).getD q) h
      exact hx ▸ List.mem_of_find?_eq_some hfind
    | none =>
      rw [hfind] at h
      exact ih _ q j h

lemma rotationGetNextAux_none {α : Type} (nameOf : α → String) (rotation : List String)
    (eligible : List α)
    (hno : ∀ s ∈ rotation, eligible.find? (fun q => decide (nameOf q = s)) = none) :
    ∀ fuel idx, idx < rotation.length →
      rotationGetNextAux nameOf rotation eligible fuel idx = none := by
  intro fuel
  induction fuel with
  | zero => intro idx _; rfl
  | succ n ih =>
    intro idx hidx
    rw [rotationGetNextAux]
    have hmem : rotation.getD idx "" ∈ rotation := by
      rw [List.getD_eq_getElem?_getD, List.getElem?_eq_getElem hidx]
      exact List.getElem_mem _
    rw [hno _ hmem]
    exact ih _ (Nat.mod_lt _ (by omega))

lemma rotationGetNextAux_first {α : Type} (nameOf : α → String) (rotation : List String)
    (eligible : List α) :
    ∀ (k fuel idx : Nat) (q : α), idx < rotation.length → k < fuel →
      (∀ j, j < k → eligible.find?
        (fun x => decide (nameOf x = rotation.getD ((idx + j) % rotation.length) "")) = none) →
      eligible.find?
        (fun x => decide (nameOf x = rotation.getD ((idx + k) % rotation.length) "")) = some q →
      rotationGetNextAux nameOf rotation eligible fuel idx =
        some (q, ((idx + k) % rotation.length + 1) % rotation.length) := by
  intro k
  induction k with
  | zero =>
    intro fuel idx q hidx hfuel hpre hfind
    cases fuel with
    | zero => omega
    | succ n =>
      rw [rotationGetNextAux]
      have hidx0 : (idx + 0) % rotation.length = idx := by
        simp [Nat.mod_eq_of_lt hidx]
      rw [hidx0] at hfind
      rw [hfind, hidx0]
  | succ m ih =>
    intro fuel idx q hidx hfuel hpre hfind
    cases fuel with
    | zero => omega
    | succ n =>
      rw [rotationGetNextAux]
      have h0 : eligible.find? (fun x => decide (nameOf x = rotation.getD idx "")) = none := by
        have := hpre 0 (by omega)
        simpa [Nat.mod_eq_of_lt hidx] using this
      rw [h0]
      have hstep : ∀ j : Nat, ((idx + 1) % rotation.length + j) % rotation.length =
          (idx + (j + 1)) % rotation.length := by
        intro j
        rw [Nat.mod_add_mod]
        congr 1
        omega
      have hpre' : ∀ j, j < m → eligible.find?
          (fun x => decide (nameOf x =
            rotation.getD (((idx + 1) % rotation.length + j) % rotation.length) "")) = none := by
        intro j hj
        rw [hstep j]
        exact hpre (j + 1) (by omega)
      have hfind' : eligible.find?
          (fun x => decide (nameOf x =
            rotation.getD (((idx + 1) % rotation.length + m) % rotation.length) "")) = some q := by
        rw [hstep m]
        exact hfind
      have := ih n ((idx + 1) % rotation.length) q (Nat.mod_lt _ (by omega)) (by omega) hpre' hfind'
      rw [this, hstep m]

/-- Claim C8: the rotation selector scans the rotation circularly from
the cursor for at most `len(rotation)` steps and returns the first
person whose name occurs in the eligible list, setting the cursor to
one past the matched position modulo the rotation length; with an
empty rotation, an empty eligible list, or no matching name it returns
`None` with the cursor unchanged.  `WorshipLeaderSelector.get_next`
and `Schedule.get_next_worship_leader` are both instances of this
algorithm, so against a static fully-eligible candidate set repeated
calls cycle through the rotation in order. -/
theorem rotation_selector_contract :
    (∀ (α : Type) (nameOf : α → String) (rotation : List String) (idx : Nat)
        (eligible : List α),
      (eligible = [] ∨ rotation = [] →
        rotationGetNext nameOf rotation idx eligible = (none, idx))
      ∧ (idx < rotation.length →
          (∀ s ∈ rotation, eligible.find? (fun q => decide (nameOf q = s)) = none) →
          rotationGetNext nameOf rotation idx eligible = (none, idx))
      ∧ (∀ (k : Nat) (q : α), idx < rotation.length → k < rotation.length →
          (∀ j, j < k → eligible.find?
            (fun x => decide (nameOf x = rotation.getD ((idx + j) % rotation.length) "")) = none) →
          eligible.find?
            (fun x => decide (nameOf x = rotation.getD ((idx + k) % rotation.length) "")) = some q →
          rotationGetNext nameOf rotation idx eligible =
            (some q, ((idx + k) % rotation.length + 1) % rotation.length)))
    ∧ (∀ rotation idx eligible, WorshipLeaderSelector.get_next rotation idx eligible =
        rotationGetNext Person.name rotation idx eligible)
    ∧ (∀ rotation idx eligible, Schedule.get_next_worship_leader rotation idx eligible =
        rotationGetNext (fun e => e.2.name) rotation idx eligible) := by
  refine ⟨?_, fun _ _ _ => rfl, fun _ _ _ => rfl⟩
  intro α nameOf rotation idx eligible
  refine ⟨?_, ?_, ?_⟩
  · rintro (rfl | rfl) <;> simp [rotationGetNext]
  · intro hidx hno
    have hrot : rotation ≠ [] := by
      intro h
      rw [h] at hidx
      simp at hidx
    unfold rotationGetNext
    rw [rotationGetNextAux_none nameOf rotation eligible hno _ _ hidx]
    by_cases he : eligible.isEmpty <;> simp [he, List.isEmpty_iff, hrot]
  · intro k q hidx hk hpre hfind
    have haux := rotationGetNextAux_first nameOf rotation eligible k rotation.length idx q
      hidx hk hpre hfind
    have hne : eligible ≠ [] := by
      intro h
      rw [h] at hfind
      simp at hfind
    have hrot : rotation ≠ [] := by
      intro h
      rw [h] at hidx
      simp at hidx
    unfold rotationGetNext
    rw [haux]
    simp [List.isEmpty_iff, hne, hrot]

/-- Claim C8 witness: rotation `[B, C, A]` against the fully eligible
set `[A, B, C]` yields `B` (cursor 1), then `C` (cursor 2), then `A`
(cursor wrapping to 0). -/
theorem rotation_selector_contract_witness :
    WorshipLeaderSelector.get_next rotBCA 0 eligABC = (some wlB, 1)
    ∧ WorshipLeaderSelector.get_next rotBCA 1 eligABC = (some wlC, 2)
    ∧ WorshipLeaderSelector.get_next rotBCA 2 eligABC = (some wlA, 0) := by
  have hmain := rotation_selector_contract
  have h0 := (hmain.1 Person Person.name rotBCA 0 eligABC).2.2 0 wlB
    (by decide) (by decide) (fun j hj => absurd hj (by omega)) (by rfl)
  have h1 := (hmain.1 Person Person.name rotBCA 1 eligABC).2.2 0 wlC
    (by decide) (by decide) (fun j hj => absurd hj (by omega)) (by rfl)
  have h2 := (hmain.1 Person Person.name rotBCA 2 eligABC).2.2 0 wlA
    (by decide) (by decide) (fun j hj => absurd hj (by omega)) (by rfl)
  refine ⟨?_, ?_, ?_⟩
  · rw [hmain.2.1 rotBCA 0 eligABC]
    simpa using h0
  · rw [hmain.2.1 rotBCA 1 eligABC]
    simpa using h1
  · rw [hmain.2.1 rotBCA 2 eligABC]
    simpa using h2

lemma assign_roles_empty_pool (events : List (Date × RMap)) (lim : Nat)
    (rotation : List String) (pn : Option String)
    (pick : List (Nat × Person) → Option (Nat × Person)) (d : Date) :
    ∀ (roles : List Role) (team : List Person) (widx : Nat) (m : RMap),
      Schedule.assign_roles events lim rotation pn pick d roles team [] widx m =
        .ok (team, [], widx, m) := by
  intro roles
  induction roles with
  | nil => intro team widx m; rfl
  | cons r rs ih =>
    intro team widx m
    rw [Schedule.assign_roles]
    have hge : Schedule.get_eligible_person events lim rotation widx [] r d pn pick =
        .ok (none, widx) := rfl
    rw [hge]
    exact ih team widx m

/-- Claim C3 (evaluation at the failing input): building with an empty
team and a single event date does not return `([], team)` — it
produces one event for the date, with every role left unassigned,
because the `if team_copy is None` guard never fires for a list-valued
team. -/
theorem empty_team_build_one_event_per_date (d : Date)
    (pick : List (Nat × Person) → Option (Nat × Person)) :
    ∃ ev, Schedule.build [] [d] [] [] pick = .ok ([ev], [])
      ∧ ev.date = d ∧ (∀ r, ev.roles r = none) ∧ ev.team = [] := by
  exact ⟨{ date := d, team := [], roles := fun _ => none, preachers := [] },
    rfl, rfl, fun _ => rfl, rfl⟩

lemma build_alice_eq (D : Date) (pick : List (Nat × Person) → Option (Nat × Person))
    (hx : pick [(0, alice)] = some (0, alice)) :
    Schedule.build [alice] [D] [] [] pick =
      .ok ([{ date := D, team := [alice.assign_event D Role.WORSHIPLEADER],
              roles := fun x => if x = Role.WORSHIPLEADER then some "Alice" else none,
              preachers := [] }],
           [alice.assign_event D Role.WORSHIPLEADER]) := by
  have h1 : Schedule.get_eligible_person [] 2 [] 0 [(0, alice)] Role.WORSHIPLEADER D none pick
      = .ok (some (0, alice), 0) := by
    rw [show Schedule.get_eligible_person [] 2 [] 0 [(0, alice)] Role.WORSHIPLEADER D none pick
        = .ok (pick [(0, alice)], 0) from rfl, hx]
  have h2 : Schedule.assign_roles [] 2 [] none pick D Role.all [alice] [(0, alice)] 0
      (fun _ => none) =
      .ok ([alice.assign_event D Role.WORSHIPLEADER], [], 0,
        fun x => if x = Role.WORSHIPLEADER then some "Alice" else none) := by
    rw [show (Role.all : List Role) = Role.WORSHIPLEADER ::
      [Role.EMCEE, Role.ACOUSTIC, Role.KEYS, Role.DRUMS, Role.BASS, Role.AUDIO_,
       Role.LIVE, Role.LYRICS, Role.SUNDAYSCHOOLTEACHER, Role.BACKUP, Role.ELECTRIC] from rfl]
    rw [Schedule.assign_roles]
    rw [h1]
    exact assign_roles_empty_pool [] 2 [] none pick D
      [Role.EMCEE, Role.ACOUSTIC, Role.KEYS, Role.DRUMS, Role.BASS, Role.AUDIO_,
       Role.LIVE, Role.LYRICS, Role.SUNDAYSCHOOLTEACHER, Role.BACKUP, Role.ELECTRIC]
      [alice.assign_event D Role.WORSHIPLEADER] 0
      (fun x => if x = Role.WORSHIPLEADER then some "Alice" else none)
  unfold Schedule.build Schedule.build_loop Schedule.build_event
  rw [show Schedule.default_role_assignment_limit = 2 from rfl]
  rw [show indexedFrom 0 [alice] = [(0, alice)] from rfl]
  rw [show (Event.get_assigned_preacher_and_graphics_support [] D).1 = none from rfl]
  simp only [h2]
  rfl

/-- Claim C1: for a team of exactly one person named Alice with role
worship leader and no constraints, and a single event date `D`,
`Schedule.build` succeeds (for any valid model of `random.choice`),
producing one event whose worship-leader slot holds "Alice", after
which Alice's `assigned_dates` is exactly `[D]`. -/
theorem single_member_happy_path (D : Date)
    (pick : List (Nat × Person) → Option (Nat × Person)) (hpick : ValidPick pick) :
    ∃ ev q, Schedule.build [alice] [D] [] [] pick = .ok ([ev], [q])
      ∧ ev.roles Role.WORSHIPLEADER = some "Alice"
      ∧ ev.date = D
      ∧ q.name = "Alice"
      ∧ q.assigned_dates = [D] := by
  obtain ⟨hmem, hsome⟩ := hpick [(0, alice)]
  obtain ⟨x, hx⟩ := Option.isSome_iff_exists.mp (hsome (by simp))
  have hx2 : x = (0, alice) := by simpa using hmem x hx
  rw [hx2] at hx
  refine ⟨_, _, build_alice_eq D pick hx, rfl, rfl, rfl, ?_⟩
  simp [Person.assign_event, alice, Person.mk_init]

/-- Claim C1 witness: the happy path evaluated with the deterministic
head-of-list choice on day 0. -/
theorem single_member_happy_path_witness :
    ∃ ev q, Schedule.build [alice] [0] [] [] List.head? = .ok ([ev], [q])
      ∧ ev.roles Role.WORSHIPLEADER = some "Alice"
      ∧ ev.date = 0
      ∧ q.name = "Alice"
      ∧ q.assigned_dates = [0] := by
  apply single_member_happy_path 0 List.head?
  intro l
  constructor
  · intro x h
    cases l with
    | nil => simp at h
    | cons a as =>
      simp only [List.head?] at h
      rw [← Option.some.inj h]
      exact List.mem_cons_self a as
  · intro h
    cases l with
    | nil => exact absurd rfl h
    | cons a as => rfl

lemma getElem?_nodup_inj {l : List String} (hn : l.Nodup) {i j : Nat} {x : String}
    (hi : l[i]? = some x) (hj : l[j]? = some x) : i = j := by
  have hi' : i < l.length := by
    by_contra h
    rw [List.getElem?_eq_none (by omega)] at hi
    exact Option.noConfusion hi
  have hj' : j < l.length := by
    by_contra h
    rw [List.getElem?_eq_none (by omega)] at hj
    exact Option.noConfusion hj
  rw [List.getElem?_eq_getElem hi'] at hi
  rw [List.getElem?_eq_getElem hj'] at hj
  have hx : l[i] = l[j] := by rw [Option.some.inj hi, Option.some.inj hj]
  exact (List.Nodup.getElem_inj_iff hn).mp hx

lemma set_getElem?_self {α : Type} :
    ∀ (l : List α) (i : Nat) (a : α), l[i]? = some a → l.set i a = l := by
  intro l
  induction l with
  | nil => intro i a h; simp at h
  | cons b bs ih =>
    intro i a h
    cases i with
    | zero =>
      simp only [List.getElem?_cons_zero, Option.some.injEq] at h
      simp [h]
    | succ n =>
      simp only [List.getElem?_cons_succ] at h
      simp [ih n a h]

lemma mem_indexedFrom {α : Type} (l : List α) :
    ∀ (n : Nat) (x : Nat × α), x ∈ indexedFrom n l → n ≤ x.1 ∧ l[x.1 - n]? = some x.2 := by
  induction l with
  | nil => intro n x h; simp [indexedFrom] at h
  | cons a as ih =>
    intro n x h
    rw [indexedFrom] at h
    rcases List.mem_cons.mp h with rfl | h2
    · simp
    · obtain ⟨h3, h4⟩ := ih (n + 1) x h2
      refine ⟨by omega, ?_⟩
      have : x.1 - n = (x.1 - (n + 1)) + 1 := by omega
      rw [this, List.getElem?_cons_succ]
      exact h4

lemma indexedFrom_fst_nodup {α : Type} (l : List α) :
    ∀ n : Nat, ((indexedFrom n l).map Prod.fst).Nodup := by
  induction l with
  | nil => intro n; simp [indexedFrom]
  | cons a as ih =>
    intro n
    rw [indexedFrom]
    simp only [List.map_cons, List.nodup_cons]
    refine ⟨?_, ih (n + 1)⟩
    intro hmem
    obtain ⟨x, hx, hfst⟩ := List.mem_map.mp hmem
    have := (mem_indexedFrom as (n + 1) x hx).1
    omega

lemma eraseP_fst_ne (i : Nat) :
    ∀ (pool : List (Nat × Person)), ((pool.map Prod.fst).Nodup) →
      ∀ x ∈ pool.eraseP (fun y => decide (y.1 = i)), x.1 ≠ i := by
  intro pool
  induction pool with
  | nil => intro _ x hx; simp at hx
  | cons h t ih =>
    intro hn x hx
    simp only [List.map_cons, List.nodup_cons] at hn
    by_cases hh : h.1 = i
    · rw [List.eraseP_cons_of_pos (by simp [hh])] at hx
      intro hxi
      exact hn.1 (List.mem_map.mpr ⟨x, hx, by omega⟩)
    · rw [List.eraseP_cons_of_neg (by simp [hh])] at hx
      rcases List.mem_cons.mp hx with rfl | hx2
      · exact hh
      · exact ih hn.2 x hx2

lemma filterMap_update_mem (m : RMap) (r : Role) (nm : String) :
    ∀ (L : List Role) (s : String),
      s ∈ L.filterMap (fun x => if x = r then some nm else m x) → s = nm ∨ s ∈ L.filterMap m := by
  intro L
  induction L with
  | nil => intro s h; simp at h
  | cons x xs ih =>
    intro s h
    by_cases hx : x = r
    · rw [List.filterMap_cons] at h
      simp only [hx, if_pos rfl] at h
      rcases List.mem_cons.mp h with rfl | h2
      · exact Or.inl rfl
      · rcases ih s h2 with h3 | h3
        · exact Or.inl h3
        · right
          rw [List.filterMap_cons]
          cases hmx : m x <;> simp [hmx, h3]
    · rw [List.filterMap_cons] at h
      simp only [if_neg hx] at h
      cases hmx : m x with
      | none =>
        rw [hmx] at h
        rcases ih s h with h3 | h3
        · exact Or.inl h3
        · right
          rw [List.filterMap_cons, hmx]
          exact h3
      | some v =>
        rw [hmx] at h
        rcases List.mem_cons.mp h with rfl | h2
        · right
          rw [List.filterMap_cons, hmx]
          exact List.mem_cons_self _ _
        · rcases ih s h2 with h3 | h3
          · exact Or.inl h3
          · right
            rw [List.filterMap_cons, hmx]
            exact List.mem_cons_of_mem _ h3

lemma filterMap_update_nodup (m : RMap) (r : Role) (nm : String) (hmr : m r = none) :
    ∀ (L : List Role), L.Nodup → (L.filterMap m).Nodup → nm ∉ L.filterMap m →
      (L.filterMap (fun x => if x = r then some nm else m x)).Nodup := by
  intro L
  induction L with
  | nil => intro _ _ _; simp
  | cons x xs ih =>
    intro hL hfm hnm
    rw [List.nodup_cons] at hL
    by_cases hx : x = r
    · subst hx
      rw [List.filterMap_cons, if_pos rfl]
      rw [List.filterMap_cons, hmr] at hfm hnm
      have hcongr : xs.filterMap (fun y => if y = x then some nm else m y) = xs.filterMap m :=
        List.filterMap_congr (fun y hy => by
          rw [if_neg]
          intro hyx
          exact hL.1 (hyx ▸ hy))
      rw [List.nodup_cons, hcongr]
      exact ⟨hnm, hfm⟩
    · rw [List.filterMap_cons, if_neg hx]
      rw [List.filterMap_cons] at hfm hnm
      cases hmx : m x with
      | none =>
        rw [hmx] at hfm hnm
        exact ih hL.2 hfm hnm
      | some v =>
        rw [hmx] at hfm hnm
        rw [List.nodup_cons] at hfm
        rw [List.mem_cons] at hnm
        push_neg at hnm
        rw [List.nodup_cons]
        refine ⟨?_, ih hL.2 hfm.2 hnm.2⟩
        intro hv
        rcases filterMap_update_mem m r nm xs v hv with h3 | h3
        · exact hnm.1 h3.symm
        · exact hfm.1 h3

lemma filter_count_filterMap (m : RMap) (nm : String) :
    ∀ (L : List Role),
      (L.filter (fun r => decide (m r = some nm))).length = (L.filterMap m).count nm := by
  intro L
  induction L with
  | nil => simp
  | cons x xs ih =>
    rw [List.filter_cons, List.filterMap_cons]
    cases hmx : m x with
    | none => simp [hmx, ih]
    | some v =>
      by_cases hv : v = nm
      · subst hv
        simp [ih, List.count_cons]
      · have hbeq : (nm == v) = false := by simp [Ne.symm hv]
        simp [hv, ih, List.count_cons, hbeq]

lemma collect_eligible_mem (events : List (Date × RMap)) (lim : Nat) (r : Role) (d : Date)
    (pn : Option String) :
    ∀ (pool out : List (Nat × Person)),
      Schedule.collect_eligible events lim pool r d pn = .ok out → ∀ x ∈ out, x ∈ pool := by
  intro pool
  induction pool with
  | nil =>
    intro out h x hx
    rw [Schedule.collect_eligible] at h
    rw [← Except.ok.inj h] at hx
    simp at hx
  | cons e rest ih =>
    intro out h x hx
    rw [Schedule.collect_eligible] at h
    cases hec : Schedule.elig_check events lim e.2 r d pn with
    | error msg => rw [hec] at h; exact Except.noConfusion h
    | ok b =>
      rw [hec] at h
      cases hcol : Schedule.collect_eligible events lim rest r d pn with
      | error msg => rw [hcol] at h; exact Except.noConfusion h
      | ok tail =>
        rw [hcol] at h
        rw [← Except.ok.inj h] at hx
        cases b with
        | true =>
          rcases List.mem_cons.mp hx with rfl | hx2
          · exact List.mem_cons_self _ _
          · exact List.mem_cons_of_mem _ (ih tail hcol x hx2)
        | false =>
          exact List.mem_cons_of_mem _ (ih tail hcol x hx)

lemma rotationGetNext_mem {α : Type} (nameOf : α → String) (rotation : List String)
    (idx : Nat) (eligible : List α) (q : α) (j : Nat)
    (h : rotationGetNext nameOf rotation idx eligible = (some q, j)) : q ∈ eligible := by
  unfold rotationGetNext at h
  split at h
  · simp at h
  · split at h
    · rename_i q' j' heq
      have hq : q' = q := by
        have := congrArg Prod.fst h
        simpa using this
      exact hq ▸ rotationGetNextAux_mem nameOf rotation eligible _ _ _ _ heq
    · simp at h

lemma get_eligible_person_mem (events : List (Date × RMap)) (lim : Nat)
    (rotation : List String) (widx : Nat) (pool : List (Nat × Person)) (r : Role) (d : Date)
    (pn : Option String) (pick : List (Nat × Person) → Option (Nat × Person))
    (hpick : ∀ l x, pick l = some x → x ∈ l) (e : Nat × Person) (w : Nat)
    (h : Schedule.get_eligible_person events lim rotation widx pool r d pn pick = .ok (some e, w)) :
    e ∈ pool := by
  unfold Schedule.get_eligible_person at h
  split at h
  · simp at h
  · split at h
    · exact Except.noConfusion h
    · rename_i elig hcol
      have hsub : ∀ x ∈ elig, x ∈ pool := collect_eligible_mem events lim r d pn pool elig hcol
      split at h
      · simp at h
      · split at h
        · split at h
          · rename_i sel widx' hrot
            have hse : sel = e := by
              have := Except.ok.inj h
              simpa using congrArg Prod.fst this
            exact hsub e (hse ▸ rotationGetNext_mem _ rotation widx elig sel widx' hrot)
          · rename_i widx' hrot
            have hpe : pick elig = some e := by
              have := Except.ok.inj h
              simpa using congrArg Prod.fst this
            exact hsub e (hpick elig e hpe)
        · have hpe : pick elig = some e := by
            have := Except.ok.inj h
            simpa using congrArg Prod.fst this
          exact hsub e (hpick elig e hpe)

lemma assign_event_name (p : Person) (d : Date) (r : Role) :
    (p.assign_event d r).name = p.name := rfl

lemma assign_roles_nodup_inv (events : List (Date × RMap)) (lim : Nat)
    (rotation : List String) (pn : Option String)
    (pick : List (Nat × Person) → Option (Nat × Person))
    (hpick : ∀ l x, pick l = some x → x ∈ l) (d : Date) :
    ∀ (roles : List Role) (team : List Person) (pool : List (Nat × Person)) (widx : Nat)
      (m : RMap) (team' : List Person) (pool' : List (Nat × Person)) (widx' : Nat) (m' : RMap),
      (team.map Person.name).Nodup →
      (∀ e ∈ pool, (team.map Person.name)[e.1]? = some e.2.name) →
      ((pool.map Prod.fst).Nodup) →
      (assignedNames m).Nodup →
      (∀ e ∈ pool, e.2.name ∉ assignedNames m) →
      Schedule.assign_roles events lim rotation pn pick d roles team pool widx m =
        .ok (team', pool', widx', m') →
      team'.map Person.name = team.map Person.name ∧ (assignedNames m').Nodup := by
  intro roles
  induction roles with
  | nil =>
    intro team pool widx m team' pool' widx' m' hnames hpool hpidx hm hdisj h
    rw [Schedule.assign_roles] at h
    have h' := Except.ok.inj h
    simp only [Prod.mk.injEq] at h'
    obtain ⟨h1, _, _, h4⟩ := h'
    rw [← h1, ← h4]
    exact ⟨rfl, hm⟩
  | cons r rs ih =>
    intro team pool widx m team' pool' widx' m' hnames hpool hpidx hm hdisj h
    rw [Schedule.assign_roles] at h
    split at h
    · exact Except.noConfusion h
    · rename_i w2 hge
      exact ih team pool w2 m team' pool' widx' m' hnames hpool hpidx hm hdisj h
    · rename_i e w2 hge
      have hmem : e ∈ pool :=
        get_eligible_person_mem events lim rotation widx pool r d pn pick hpick e w2 hge
      split at h
      · exact Except.noConfusion h
      · rename_i m2 p2 hav
        unfold Event.assign_role_valid at hav
        split at hav
        · exact Except.noConfusion hav
        · rename_i hmr
          have hav' := Except.ok.inj hav
          simp only [Prod.mk.injEq] at hav'
          obtain ⟨hm2, hp2⟩ := hav'
          have hp2name : p2.name = e.2.name := by
            rw [← hp2]
            rfl
          have hnames2 : ((team.set e.1 p2).map Person.name) = team.map Person.name := by
            rw [List.map_set, hp2name]
            exact set_getElem?_self _ _ _ (hpool e hmem)
          have hm2nodup : (assignedNames m2).Nodup := by
            rw [← hm2]
            exact filterMap_update_nodup m r e.2.name hmr Role.all (by decide) hm
              (hdisj e hmem)
          have hp' : ∀ x ∈ pool.eraseP (fun y => decide (y.1 = e.1)), x ∈ pool :=
            fun x hx => (List.eraseP_sublist pool).subset hx
          have hres := ih (team.set e.1 p2) (pool.eraseP (fun y => decide (y.1 = e.1)))
            w2 m2 team' pool' widx' m'
            (by rw [hnames2]; exact hnames)
            (by
              intro x hx
              rw [hnames2]
              exact hpool x (hp' x hx))
            ((hpidx.sublist ((List.eraseP_sublist pool).map Prod.fst)))
            hm2nodup
            (by
              intro x hx hxin
              rw [← hm2] at hxin
              rcases filterMap_update_mem m r e.2.name Role.all x.2.name hxin with heq | hin
              · have hxi : x.1 ≠ e.1 := eraseP_fst_ne e.1 pool hpidx x hx
                have h1 := hpool x (hp' x hx)
                have h2 := hpool e hmem
                rw [← heq] at h2
                exact hxi (getElem?_nodup_inj hnames h1 h2)
              · exact hdisj x (hp' x hx) hin)
            h
          rw [hnames2] at hres
          exact hres

lemma build_event_inv (preachers : List Preacher) (lim : Nat) (rotation : List String)
    (pick : List (Nat × Person) → Option (Nat × Person))
    (hpick : ∀ l x, pick l = some x → x ∈ l)
    (team : List Person) (events : List (Date × RMap)) (widx : Nat) (d : Date)
    (team' : List Person) (events' : List (Date × RMap)) (widx' : Nat)
    (hnames : (team.map Person.name).Nodup)
    (hev : ∀ em ∈ events, (assignedNames em.2).Nodup)
    (h : Schedule.build_event preachers lim rotation pick team events widx d =
      .ok (team', events', widx')) :
    team'.map Person.name = team.map Person.name
    ∧ ∀ em ∈ events', (assignedNames em.2).Nodup := by
  unfold Schedule.build_event at h
  simp only [] at h
  split at h
  · exact Except.noConfusion h
  · rename_i t2 pool2 w2 m2 har
    have h' := Except.ok.inj h
    simp only [Prod.mk.injEq] at h'
    obtain ⟨ht, hevts, _⟩ := h'
    have hinv := assign_roles_nodup_inv events lim rotation
      (Event.get_assigned_preacher_and_graphics_support preachers d).1 pick hpick d
      Role.all team (indexedFrom 0 team) widx (fun _ => none) t2 pool2 w2 m2
      hnames
      (by
        intro e he
        obtain ⟨_, hg⟩ := mem_indexedFrom team 0 e he
        rw [Nat.sub_zero] at hg
        rw [List.getElem?_map, hg]
        rfl)
      (indexedFrom_fst_nodup team 0)
      (by decide)
      (by
        intro e _ hin
        rw [show assignedNames (fun _ => none) = [] from rfl] at hin
        simp at hin)
      har
    refine ⟨by rw [← ht]; exact hinv.1, ?_⟩
    intro em hem
    rw [← hevts] at hem
    rcases List.mem_append.mp hem with hold | hnew
    · exact hev em hold
    · have : em = (d, m2) := by simpa using hnew
      rw [this]
      exact hinv.2

lemma build_loop_inv (preachers : List Preacher) (lim : Nat) (rotation : List String)
    (pick : List (Nat × Person) → Option (Nat × Person))
    (hpick : ∀ l x, pick l = some x → x ∈ l) :
    ∀ (dates : List Date) (team : List Person) (events : List (Date × RMap)) (widx : Nat)
      (team' : List Person) (events' : List (Date × RMap)) (widx' : Nat),
      (team.map Person.name).Nodup →
      (∀ em ∈ events, (assignedNames em.2).Nodup) →
      Schedule.build_loop preachers lim rotation pick dates team events widx =
        .ok (team', events', widx') →
      ∀ em ∈ events', (assignedNames em.2).Nodup := by
  intro dates
  induction dates with
  | nil =>
    intro team events widx team' events' widx' hnames hev h
    rw [Schedule.build_loop] at h
    have h' := Except.ok.inj h
    simp only [Prod.mk.injEq] at h'
    obtain ⟨_, hevts, _⟩ := h'
    rw [← hevts]
    exact hev
  | cons d ds ih =>
    intro team events widx team' events' widx' hnames hev h
    rw [Schedule.build_loop] at h
    split at h
    · exact Except.noConfusion h
    · rename_i t2 e2 w2 hbe
      have hinv := build_event_inv preachers lim rotation pick hpick team events widx d
        t2 e2 w2 hnames hev hbe
      exact ih t2 e2 w2 team' events' widx' (by rw [hinv.1]; exact hnames) hinv.2 h

/-- Claim C2: for every list of target dates and every team with
pairwise-distinct names (and any valid model of `random.choice`), in
every event produced by `Schedule.build` each person's name occupies
at most one role slot, because an assigned person is removed from the
per-event working pool before the next role is considered. -/
theorem no_double_booking (team : List Person) (dates : List Date)
    (preachers : List Preacher) (rotation : List String)
    (pick : List (Nat × Person) → Option (Nat × Person))
    (hpick : ∀ l x, pick l = some x → x ∈ l)
    (hnames : (team.map Person.name).Nodup)
    (evs : List Event) (team' : List Person)
    (hbuild : Schedule.build team dates preachers rotation pick = .ok (evs, team')) :
    ∀ ev ∈ evs, ∀ nm : String,
      (Role.all.filter (fun r => decide (ev.roles r = some nm))).length ≤ 1 := by
  intro ev hev nm
  unfold Schedule.build at hbuild
  split at hbuild
  · exact Except.noConfusion hbuild
  · rename_i t2 events w2 hloop
    have h' := Except.ok.inj hbuild
    simp only [Prod.mk.injEq] at h'
    obtain ⟨hevs, _⟩ := h'
    rw [← hevs] at hev
    obtain ⟨em, hem, hevem⟩ := List.mem_map.mp hev
    have hnd : (assignedNames em.2).Nodup :=
      build_loop_inv preachers Schedule.default_role_assignment_limit rotation pick hpick
        dates team [] 0 t2 events w2 hnames (by intro em h; simp at h) hloop em hem
    have hroles : ev.roles = em.2 := by rw [← hevem]
    rw [hroles, filter_count_filterMap em.2 nm Role.all]
    exact List.nodup_iff_count_le_one.mp hnd nm

/-- Claim C2 witness: the property evaluated on the one-person team on
day 0 with the deterministic head-of-list choice. -/
theorem no_double_booking_witness :
    ∃ evs team', Schedule.build [alice] [0] [] [] List.head? = .ok (evs, team')
      ∧ ∀ ev ∈ evs, ∀ nm : String,
          (Role.all.filter (fun r => decide (ev.roles r = some nm))).length ≤ 1 := by
  have hb : Schedule.build [alice] [0] [] [] List.head? =
      .ok ([{ date := 0, team := [alice.assign_event 0 Role.WORSHIPLEADER],
              roles := fun x => if x = Role.WORSHIPLEADER then some "Alice" else none,
              preachers := [] }],
           [alice.assign_event 0 Role.WORSHIPLEADER]) :=
    build_alice_eq 0 List.head? rfl
  refine ⟨_, _, hb, ?_⟩
  exact no_double_booking [alice] [0] [] [] List.head?
    (by
      intro l x h
      cases l with
      | nil => simp at h
      | cons a as =>
        simp only [List.head?] at h
        rw [← Option.some.inj h]
        exact List.mem_cons_self a as)
    (by decide) _ _ hb

lemma dictLookup_cons (a : Role × Option Date) (t : List (Role × Option Date)) (x : Role) :
    dictLookup (a :: t) x = if a.1 = x then some a.2 else dictLookup t x := by
  unfold dictLookup
  rw [List.find?_cons]
  by_cases h : a.1 = x <;> simp [h]

lemma dictLookup_map_update (r : Role) (v : Option Date) :
    ∀ (d : List (Role × Option Date)) (x : Role),
      dictLookup (d.map (fun kv => if kv.1 = r then (kv.1, v) else kv)) x =
        if x = r then (if (dictLookup d r).isSome then some v else none)
        else dictLookup d x := by
  intro d
  induction d with
  | nil => intro x; by_cases h : x = r <;> simp [h, dictLookup]
  | cons a t ih =>
    intro x
    rw [List.map_cons, dictLookup_cons, dictLookup_cons, dictLookup_cons]
    by_cases har : a.1 = r
    · rw [if_pos har]
      by_cases hxr : x = r
      · subst hxr
        simp [har]
      · have hax : ¬ a.1 = x := by rw [har]; exact fun hh => hxr hh.symm
        have hrx : ¬ r = x := fun hh => hxr hh.symm
        rw [if_neg hxr]
        simp only [har, if_pos rfl]
        rw [if_neg hrx, if_neg hrx, ih x, if_neg hxr]
    · rw [if_neg har]
      by_cases hax : a.1 = x
      · have hxr : ¬ x = r := by rw [← hax]; exact fun hh => har hh
        simp [hax, hxr]
      · rw [if_neg hax, if_neg hax, ih x]
        by_cases hxr : x = r
        · subst hxr
          have : ¬ (a.1 = x) := hax
          simp [har]
        · simp [hxr]

lemma dictLookup_append (d1 d2 : List (Role × Option Date)) (x : Role) :
    dictLookup (d1 ++ d2) x =
      if (dictLookup d1 x).isSome then dictLookup d1 x else dictLookup d2 x := by
  induction d1 with
  | nil => simp [dictLookup]
  | cons a t ih =>
    rw [List.cons_append, dictLookup_cons, dictLookup_cons]
    by_cases h : a.1 = x
    · simp [h]
    · rw [if_neg h, if_neg h, ih]

lemma dictLookup_insert (d : List (Role × Option Date)) (r : Role) (v : Option Date)
    (x : Role) :
    dictLookup (dictInsert d r v) x = if x = r then some v else dictLookup d x := by
  unfold dictInsert
  by_cases hpres : (dictLookup d r).isSome
  · rw [if_pos hpres, dictLookup_map_update]
    by_cases hxr : x = r <;> simp [hxr, hpres]
  · rw [if_neg hpres, dictLookup_append]
    by_cases hxr : x = r
    · subst hxr
      have hnone : dictLookup d x = none := by
        cases hl : dictLookup d x
        · rfl
        · rw [hl] at hpres; simp at hpres
      rw [hnone]
      simp [dictLookup_cons, dictLookup]
    · by_cases hsome : (dictLookup d x).isSome
      · rw [if_pos hsome, if_neg hxr]
      · have hnone : dictLookup d x = none := by
          cases hl : dictLookup d x
          · rfl
          · rw [hl] at hsome; simp at hsome
        rw [if_neg hsome, if_neg hxr, hnone]
        have : ¬ (r = x) := fun hh => hxr hh.symm
        simp [dictLookup_cons, this, dictLookup]

lemma mk_init_keys (roles : List Role) :
    ∀ r : Role, dictLookup (roles.map (fun s => (s, (none : Option Date)))) r = none
      ↔ r ∉ roles := by
  induction roles with
  | nil => intro r; simp [dictLookup]
  | cons a t ih =>
    intro r
    rw [List.map_cons, dictLookup_cons]
    by_cases h : a = r
    · simp [h]
    · have hra : ¬ r = a := fun hh => h hh.symm
      rw [if_neg h, ih r]
      simp [List.mem_cons, hra]

lemma applyAssigns_lookup_none :
    ∀ (ops : List (Date × Role)) (q : Person) (r : Role),
      dictLookup (q.applyAssigns ops).last_assigned_dates r = none ↔
        (dictLookup q.last_assigned_dates r = none ∧ r ∉ ops.map Prod.snd) := by
  intro ops
  induction ops with
  | nil => intro q r; simp [Person.applyAssigns]
  | cons op t ih =>
    intro q r
    have hfold : q.applyAssigns (op :: t) = (q.assign_event op.1 op.2).applyAssigns t := rfl
    rw [hfold, ih]
    have hins : dictLookup (q.assign_event op.1 op.2).last_assigned_dates r =
        if r = op.2 then some (some op.1) else dictLookup q.last_assigned_dates r := by
      unfold Person.assign_event
      exact dictLookup_insert _ _ _ _
    rw [hins]
    by_cases hr : r = op.2
    · simp [hr]
    · simp only [if_neg hr, List.map_cons, List.mem_cons]
      constructor
      · rintro ⟨h1, h2⟩
        exact ⟨h1, fun hh => hh.elim (fun he => hr he) h2⟩
      · rintro ⟨h1, h2⟩
        exact ⟨h1, fun hh => h2 (Or.inr hh)⟩

lemma cooldownBranch_isOk (p : Person) (r : Role) (d : Date) (w : Int)
    (h : (dictLookup p.last_assigned_dates r).isSome) :
    ∃ b, cooldownBranch p r d w = .ok b := by
  unfold cooldownBranch
  cases hl : dictLookup p.last_assigned_dates r with
  | none => rw [hl] at h; simp at h
  | some v => cases v <;> exact ⟨_, rfl⟩

lemma was_not_isOk (p : Person) (r : Role) (d : Date)
    (h : (dictLookup p.last_assigned_dates r).isSome) :
    ∃ b, p.was_not_assigned_too_recently_to_role r d = .ok b := by
  unfold Person.was_not_assigned_too_recently_to_role
  by_cases h1 : r = Role.WORSHIPLEADER
  · rw [if_pos h1]; exact cooldownBranch_isOk p r d _ h
  · rw [if_neg h1]
    by_cases h2 : r = Role.SUNDAYSCHOOLTEACHER
    · rw [if_pos h2]; exact cooldownBranch_isOk p r d _ h
    · rw [if_neg h2]
      by_cases h3 : r = Role.EMCEE
      · rw [if_pos h3]; exact cooldownBranch_isOk p r d _ h
      · rw [if_neg h3]; exact ⟨true, rfl⟩

lemma elig_check_isOk (events : List (Date × RMap)) (lim : Nat) (p : Person) (r : Role)
    (d : Date) (pn : Option String)
    (hwf : ∀ s ∈ p.roles, (dictLookup p.last_assigned_dates s).isSome) :
    ∃ b, Schedule.elig_check events lim p r d pn = .ok b := by
  unfold Schedule.elig_check
  by_cases h1 : ¬ (r ∈ p.roles)
  · rw [if_pos h1]; exact ⟨false, rfl⟩
  · rw [if_neg h1]
    push_neg at h1
    split
    · exact ⟨false, rfl⟩
    · split
      · exact ⟨false, rfl⟩
      · obtain ⟨b, hb⟩ := was_not_isOk p r d (hwf r h1)
        rw [hb]
        exact ⟨_, rfl⟩

lemma collect_eligible_isOk (events : List (Date × RMap)) (lim : Nat) (r : Role) (d : Date)
    (pn : Option String) :
    ∀ pool : List (Nat × Person),
      (∀ e ∈ pool, ∀ s ∈ e.2.roles, (dictLookup e.2.last_assigned_dates s).isSome) →
      ∃ out, Schedule.collect_eligible events lim pool r d pn = .ok out := by
  intro pool
  induction pool with
  | nil => intro _; exact ⟨[], rfl⟩
  | cons e rest ih =>
    intro hwf
    obtain ⟨b, hb⟩ := elig_check_isOk events lim e.2 r d pn
      (hwf e (List.mem_cons_self _ _))
    obtain ⟨tail, htail⟩ := ih (fun x hx => hwf x (List.mem_cons_of_mem _ hx))
    refine ⟨if b then e :: tail else tail, ?_⟩
    rw [Schedule.collect_eligible, hb, htail]

/-- Claim C10 (implicit): `Person.__init__` keys `last_assigned_dates`
by the declared roles only, so for any reachable person state the
lookup raises `KeyError` exactly when the role is neither declared nor
previously assigned; on a cooldown-bearing role this makes the
cooldown checks raise instead of returning the permissive `True`;
under the capability precondition `r ∈ p.roles` the lookup (and hence
the cooldown check) always succeeds; and `Schedule.get_eligible_person`
establishes that precondition by skipping non-capable persons first,
so it never raises for a pool of such persons. -/
theorem cooldown_lookup_keyerror
    (name : String) (roles : List Role) (bl pr te : List Date) (ol : Bool)
    (ops : List (Date × Role)) (d : Date) :
    (∀ r, dictLookup
        ((Person.mk_init name roles bl pr te ol).applyAssigns ops).last_assigned_dates r = none
      ↔ (r ∉ roles ∧ r ∉ ops.map Prod.snd))
    ∧ (∀ (p : Person) (r : Role), r ∈ cooldownRoles →
        dictLookup p.last_assigned_dates r = none →
        Person.was_not_assigned_too_recently_to_role p r d = .error "KeyError"
        ∧ RoleTimeWindowRule.is_eligible p r d = .error "KeyError")
    ∧ (∀ r, r ∈ roles →
        ∃ b, ((Person.mk_init name roles bl pr te ol).applyAssigns ops).was_not_assigned_too_recently_to_role
          r d = .ok b)
    ∧ (∀ (events : List (Date × RMap)) (lim : Nat) (rotation : List String) (widx : Nat)
        (pool : List (Nat × Person)) (r : Role) (pn : Option String)
        (pick : List (Nat × Person) → Option (Nat × Person)),
        (∀ e ∈ pool, ∀ s ∈ e.2.roles, (dictLookup e.2.last_assigned_dates s).isSome) →
        ∃ v, Schedule.get_eligible_person events lim rotation widx pool r d pn pick = .ok v) := by
  refine ⟨?_, ?_, ?_, ?_⟩
  · intro r
    rw [applyAssigns_lookup_none]
    have : (Person.mk_init name roles bl pr te ol).last_assigned_dates =
        roles.map (fun s => (s, none)) := rfl
    rw [this, mk_init_keys]
  · intro p r hr hnone
    simp only [cooldownRoles, List.mem_cons, List.not_mem_nil, or_false] at hr
    rcases hr with rfl | rfl | rfl <;>
      exact ⟨by simp [Person.was_not_assigned_too_recently_to_role, cooldownBranch, hnone],
             by simp [RoleTimeWindowRule.is_eligible, cooldownBranch, hnone]⟩
  · intro r hr
    apply was_not_isOk
    cases hl : dictLookup
        ((Person.mk_init name roles bl pr te ol).applyAssigns ops).last_assigned_dates r
    · rw [applyAssigns_lookup_none] at hl
      have : (Person.mk_init name roles bl pr te ol).last_assigned_dates =
          roles.map (fun s => (s, none)) := rfl
      rw [this, mk_init_keys] at hl
      exact absurd hr hl.1
    · rfl
  · intro events lim rotation widx pool r pn pick hwf
    unfold Schedule.get_eligible_person
    by_cases hempty : pool.isEmpty
    · rw [if_pos hempty]; exact ⟨_, rfl⟩
    · rw [if_neg hempty]
      obtain ⟨out, hout⟩ := collect_eligible_isOk events lim r d pn pool hwf
      simp only [hout]
      by_cases helig : out.isEmpty
      · rw [if_pos helig]; exact ⟨_, rfl⟩
      · rw [if_neg helig]
        by_cases hwl : r = Role.WORSHIPLEADER
        · rw [if_pos hwl]
          cases hrot : Schedule.get_next_worship_leader rotation widx out with
          | mk sel w2 => cases sel <;> exact ⟨_, rfl⟩
        · rw [if_neg hwl]; exact ⟨_, rfl⟩

/-- Claim C10 witness: a person declared only for emcee — the
worship-leader lookup raises `KeyError` while the declared role's
check succeeds, and `Schedule.get_eligible_person` succeeds on a pool
containing that person. -/
theorem cooldown_lookup_keyerror_witness :
    (dictLookup ((Person.mk_init "P" [Role.EMCEE] [] [] [] false).applyAssigns []).last_assigned_dates
        Role.WORSHIPLEADER = none)
    ∧ Person.was_not_assigned_too_recently_to_role
        ((Person.mk_init "P" [Role.EMCEE] [] [] [] false).applyAssigns [])
        Role.WORSHIPLEADER 0 = .error "KeyError"
    ∧ (∃ b, ((Person.mk_init "P" [Role.EMCEE] [] [] [] false).applyAssigns []).was_not_assigned_too_recently_to_role
        Role.EMCEE 0 = .ok b)
    ∧ (∃ v, Schedule.get_eligible_person [] 2 [] 0
        [(0, (Person.mk_init "P" [Role.EMCEE] [] [] [] false).applyAssigns [])]
        Role.WORSHIPLEADER 0 none List.head? = .ok v) := by
  have hmain := cooldown_lookup_keyerror "P" [Role.EMCEE] [] [] [] false [] 0
  have hnone : dictLookup
      ((Person.mk_init "P" [Role.EMCEE] [] [] [] false).applyAssigns []).last_assigned_dates
      Role.WORSHIPLEADER = none :=
    (hmain.1 Role.WORSHIPLEADER).mpr (by decide)
  refine ⟨hnone, ?_, ?_, ?_⟩
  · exact (hmain.2.1 _ Role.WORSHIPLEADER (by decide) hnone).1
  · exact hmain.2.2.1 Role.EMCEE (by decide)
  · exact hmain.2.2.2 [] 2 [] 0 _ Role.WORSHIPLEADER none List.head? (by decide)
